import Mathlib

/-
  Verification of the escrow-vault and premarket-trade programs.

  Shallow embedding conventions:
  * `u64` values are modelled as `Nat` together with explicit checked-arithmetic
    guards against `U64SIZE = 2 ^ 64` (mirroring Rust `checked_add` / `checked_sub`
    / `checked_mul` / `checked_div` and `saturating_sub`).
  * `i64` timestamps are modelled as `Int`.
  * `Pubkey` values are modelled as `Nat` (only equality of keys matters).
  * Fallible Rust handlers returning `Result<T>` are modelled as
    `Except <ErrorEnum> T`; an `Except.error` result models a transaction that
    aborts with that error and leaves every account unchanged (the host's
    all-or-nothing execution guarantee), so an erroring handler performs no
    state mutation and no token transfer.
  * Token movements performed by a handler are reported as an explicit list of
    `PayAction` values rather than as mutations of token accounts.
-/

namespace OrcaPremie

/-- Word bound: number of distinct u64 values; checked u64 arithmetic fails at this bound. -/
def U64SIZE : Nat := 2 ^ 64

namespace Vault

/-- Error enum of the escrow-vault program (programs/escrow-vault/src/error.rs),
restricted to the variants reachable from the modelled instructions. -/
inductive VaultError where
  | VaultPaused
  | InvalidAccountOwner
  | InvalidTokenMint
  | InsufficientBalance
  | ZeroAmount
  | MathOverflow
  | UnauthorizedTrader
  | TokenMintMismatch
  | ArithmeticOverflow
  | InvalidRecipient
  | AccountNotInitialized
  | FailedToLoadInstruction
  deriving DecidableEq, Repr

/-- UserBalance account state (programs/escrow-vault/src/state/user_balance.rs).
Only the `balance : u64` field participates in the modelled arithmetic; the
`user`, `token_mint` and `bump` fields are address bookkeeping resolved by the
account constraints. -/
structure UserBalance where
  balance : Nat
  deriving DecidableEq, Repr

/-- UserBalance::credit_balance: `balance = balance.checked_add(amount).ok_or(MathOverflow)`. -/
def UserBalance.credit_balance (ub : UserBalance) (amount : Nat) : Except VaultError UserBalance :=
  if ub.balance + amount < U64SIZE then .ok ⟨ub.balance + amount⟩
  else .error .MathOverflow

/-- UserBalance::slash_balance: `require!(balance >= amount, InsufficientBalance)` then
`balance = balance.checked_sub(amount).ok_or(MathOverflow)` (the checked_sub cannot
fail once the require has passed). -/
def UserBalance.slash_balance (ub : UserBalance) (amount : Nat) : Except VaultError UserBalance :=
  if amount ≤ ub.balance then .ok ⟨ub.balance - amount⟩
  else .error .InsufficientBalance

/-- UserBalance::has_sufficient_balance. -/
def UserBalance.has_sufficient_balance (ub : UserBalance) (amount : Nat) : Bool :=
  amount ≤ ub.balance

/-- Result of running slash_balance against a record, keeping the old record when
the instruction aborts (host atomicity: a failed transaction mutates nothing). -/
def UserBalance.slashRun (ub : UserBalance) (amount : Nat) : UserBalance :=
  match ub.slash_balance amount with
  | .ok ub2 => ub2
  | .error _ => ub

/-- Result of running credit_balance against a record, keeping the old record when
the instruction aborts. -/
def UserBalance.creditRun (ub : UserBalance) (amount : Nat) : UserBalance :=
  match ub.credit_balance amount with
  | .ok ub2 => ub2
  | .error _ => ub

/-- Composition "slash_balance(a) then credit_balance(a)" on one record, as in
spec section 8, first bullet. -/
def UserBalance.slashThenCredit (ub : UserBalance) (amount : Nat) : Except VaultError UserBalance :=
  match ub.slash_balance amount with
  | .ok ub1 => ub1.credit_balance amount
  | .error e => .error e

/-- VaultAuthority account state (programs/escrow-vault/src/state/vault_authority.rs);
only `total_deposits : u64` participates in the modelled arithmetic. -/
structure VaultAuthority where
  total_deposits : Nat
  deriving DecidableEq, Repr

/-- VaultAuthority::add_deposit: checked_add, MathOverflow on overflow. -/
def VaultAuthority.add_deposit (va : VaultAuthority) (amount : Nat) : Except VaultError VaultAuthority :=
  if va.total_deposits + amount < U64SIZE then .ok ⟨va.total_deposits + amount⟩
  else .error .MathOverflow

/-- VaultAuthority::subtract_deposit: `require!(total_deposits >= amount, InsufficientBalance)`
then checked_sub. -/
def VaultAuthority.subtract_deposit (va : VaultAuthority) (amount : Nat) : Except VaultError VaultAuthority :=
  if amount ≤ va.total_deposits then .ok ⟨va.total_deposits - amount⟩
  else .error .InsufficientBalance

/-
  Per-token ledger state: the UserBalance records of all users for a fixed token
  mint together with that token's VaultAuthority.total_deposits.  Users are
  identified with indices into the balance list; all balance accounts are taken
  as already created (a deposit to a fresh account initializes the balance to 0
  and then credits it, which is the same arithmetic).
-/

/-- Aggregate per-token state: one UserBalance.balance per user plus the token's
VaultAuthority.total_deposits. -/
structure LedgerState where
  balances : List Nat
  total_deposits : Nat
  deriving DecidableEq, Repr

/-- Balance of user `u` (0 when the index is out of range). -/
def bal (s : LedgerState) (u : Nat) : Nat := s.balances.getD u 0

/-- Sum over all users of UserBalance.balance for the fixed token. -/
def sumBalances (s : LedgerState) : Nat := s.balances.sum

/-- The six balance-affecting vault operations of the claims: deposit, withdraw,
credit_balance, slash_balance, transfer_balance and transfer_out, each carrying
the user indices and the u64 amount argument. -/
inductive VaultOp where
  | deposit (u a : Nat)
  | withdraw (u a : Nat)
  | credit (u a : Nat)
  | slash (u a : Nat)
  | transferBalance (u v a : Nat)
  | transferOut (u a : Nat)
  deriving DecidableEq, Repr

/-- One vault instruction applied to the per-token ledger state, following the
handlers in programs/escrow-vault/src/instructions/.  The caller-authorization
gate of the privileged instructions (credit, slash, transfer_balance,
transfer_out) and the pause flag only decide whether the instruction runs at
all and never touch balances, so they are not part of this state transition.
* deposit (deposit.rs): ZeroAmount check, then UserBalance::credit_balance,
  then VaultAuthority::add_deposit.
* withdraw (withdraw.rs): balance-sufficiency account constraint and ZeroAmount
  check, then UserBalance::slash_balance, then VaultAuthority::subtract_deposit.
* credit (credit_balance.rs): ZeroAmount check, then UserBalance::credit_balance;
  total_deposits untouched.
* slash (slash_balance.rs): sufficiency constraint, ZeroAmount check, then
  UserBalance::slash_balance; total_deposits untouched.
* transferBalance (transfer_balance.rs): ZeroAmount, from ≠ to, sufficiency,
  then slash_balance on the source and credit_balance on the destination;
  total_deposits untouched.
* transferOut (transfer_out.rs): sufficiency constraint, ZeroAmount check, then
  `balance = balance.checked_sub(amount).ok_or(ArithmeticOverflow)`;
  total_deposits untouched (the handler never calls subtract_deposit). -/
def applyOp (s : LedgerState) : VaultOp → Except VaultError LedgerState
  | .deposit u a =>
    if u < s.balances.length then
      if a = 0 then .error .ZeroAmount
      else
        match UserBalance.credit_balance ⟨bal s u⟩ a with
        | .error e => .error e
        | .ok ub =>
          match VaultAuthority.add_deposit ⟨s.total_deposits⟩ a with
          | .error e => .error e
          | .ok va => .ok ⟨s.balances.set u ub.balance, va.total_deposits⟩
    else .error .AccountNotInitialized
  | .withdraw u a =>
    if u < s.balances.length then
      if bal s u < a then .error .InsufficientBalance
      else if a = 0 then .error .ZeroAmount
      else
        match UserBalance.slash_balance ⟨bal s u⟩ a with
        | .error e => .error e
        | .ok ub =>
          match VaultAuthority.subtract_deposit ⟨s.total_deposits⟩ a with
          | .error e => .error e
          | .ok va => .ok ⟨s.balances.set u ub.balance, va.total_deposits⟩
    else .error .AccountNotInitialized
  | .credit u a =>
    if u < s.balances.length then
      if a = 0 then .error .ZeroAmount
      else
        match UserBalance.credit_balance ⟨bal s u⟩ a with
        | .error e => .error e
        | .ok ub => .ok ⟨s.balances.set u ub.balance, s.total_deposits⟩
    else .error .AccountNotInitialized
  | .slash u a =>
    if u < s.balances.length then
      if bal s u < a then .error .InsufficientBalance
      else if a = 0 then .error .ZeroAmount
      else
        match UserBalance.slash_balance ⟨bal s u⟩ a with
        | .error e => .error e
        | .ok ub => .ok ⟨s.balances.set u ub.balance, s.total_deposits⟩
    else .error .AccountNotInitialized
  | .transferBalance u v a =>
    if u < s.balances.length ∧ v < s.balances.length then
      if bal s u < a then .error .InsufficientBalance
      else if a = 0 then .error .ZeroAmount
      else if u = v then .error .InvalidRecipient
      else
        match UserBalance.slash_balance ⟨bal s u⟩ a with
        | .error e => .error e
        | .ok ubFrom =>
          match UserBalance.credit_balance ⟨bal s v⟩ a with
          | .error e => .error e
          | .ok ubTo =>
            .ok ⟨(s.balances.set u ubFrom.balance).set v ubTo.balance, s.total_deposits⟩
    else .error .AccountNotInitialized
  | .transferOut u a =>
    if u < s.balances.length then
      if bal s u < a then .error .InsufficientBalance
      else if a = 0 then .error .ZeroAmount
      else
        if a ≤ bal s u then .ok ⟨s.balances.set u (bal s u - a), s.total_deposits⟩
        else .error .ArithmeticOverflow

    else .error .AccountNotInitialized

/-- Run a sequence of vault operations; the whole run fails as soon as one
operation fails (each claim only quantifies over runs in which every operation
succeeds, i.e. runs whose result is `Except.ok`). -/
def runOps (s : LedgerState) : List VaultOp → Except VaultError LedgerState
  | [] => .ok s
  | op :: ops =>
    match applyOp s op with
    | .ok s1 => runOps s1 ops
    | .error e => .error e

/-- Side condition of the amended custody invariant: a credit_balance operation
credits at most the current gap `total_deposits - Σ balances` (the value that is
locked in flight); every other operation is unrestricted. -/
def creditWithinGap (s : LedgerState) : VaultOp → Prop
  | .credit _ a => sumBalances s + a ≤ s.total_deposits
  | _ => True

/-- A run of vault operations in which every operation succeeds and every
credit_balance stays within the current custody gap. -/
inductive GoodRun : LedgerState → List VaultOp → LedgerState → Prop where
  | nil (s : LedgerState) : GoodRun s [] s
  | cons {s s1 s2 : LedgerState} {op : VaultOp} {ops : List VaultOp} :
      applyOp s op = .ok s1 → creditWithinGap s op → GoodRun s1 ops s2 →
      GoodRun s (op :: ops) s2

/-
  Caller-identity detection (programs/escrow-vault/src/utils.rs,
  get_cpi_caller_program_id).  The host-provided instruction chain is modelled
  as a partial map from instruction index to the declared program identity of
  the instruction stored there (`none` when load_instruction_at_checked fails,
  e.g. past the end of the transaction).  Program identities are `Nat`; the
  three fixed infrastructure identities are distinct constants.
-/

/-- The system program identity (solana_program::system_program::ID). -/
def system_program_id : Nat := 0

/-- The compute-budget program identity (ComputeBudget111...). -/
def compute_budget_program_id : Nat := 1

/-- The instructions-sysvar / introspection program identity (sysvar::ID). -/
def sysvar_instructions_id : Nat := 2

/-- The `system_programs` skip array of get_cpi_caller_program_id. -/
def system_programs : List Nat :=
  [system_program_id, compute_budget_program_id, sysvar_instructions_id]

/-- Backward scan of get_cpi_caller_program_id: inspect index `i`, then `i - 1`,
down to 0; skip unloadable slots and the fixed infrastructure identities;
return the first other identity found, else FailedToLoadInstruction. -/
def scanForCaller (chain : Nat → Option Nat) : Nat → Except VaultError Nat
  | 0 =>
    match chain 0 with
    | some p => if system_programs.contains p then .error .FailedToLoadInstruction else .ok p
    | none => .error .FailedToLoadInstruction
  | i + 1 =>
    match chain (i + 1) with
    | some p => if system_programs.contains p then scanForCaller chain i else .ok p
    | none => scanForCaller chain i

/-- get_cpi_caller_program_id: `for i in (0..=current_index + 1).rev() { ... }`,
i.e. the backward scan started at index `current_index + 1`. -/
def get_cpi_caller_program_id (chain : Nat → Option Nat) (current_index : Nat) :
    Except VaultError Nat :=
  scanForCaller chain (current_index + 1)

end Vault

namespace Trading

/-- Error enum of the premarket-trade program (programs/premarket-trade/src/error.rs),
restricted to the variants reachable from the modelled instructions. -/
inductive TradingError where
  | InvalidSignature
  | TradeAlreadySettled
  | GracePeriodActive
  | GracePeriodExpired
  | InvalidAccountOwner
  | MathOverflow
  | OrderExpired
  | OnlyBuyerCanCancel
  | OnlySellerCanSettle
  | TokenNotMapped
  | TokenMintMismatch
  | TradingPaused
  | InsufficientBalance
  | ZeroAmount
  | OrderAlreadyCancelled
  | OrderAlreadyFilled
  | InvalidOrderOwner
  deriving DecidableEq, Repr

/-- PRICE_SCALE constant (programs/premarket-trade/src/common.rs): 6 decimals. -/
def PRICE_SCALE : Nat := 1000000

/-- EconomicConfig (programs/premarket-trade/src/common.rs); the u16 bps fields
are widened to `Nat` (the handlers cast them to u64 before use). -/
structure EconomicConfig where
  minimum_fill_amount : Nat
  maximum_order_amount : Nat
  buyer_collateral_ratio : Nat
  seller_collateral_ratio : Nat
  seller_reward_bps : Nat
  late_penalty_bps : Nat
  deriving DecidableEq, Repr

/-- Token movements a handler performs, reported explicitly:
`tokenTransfer` is a direct SPL transfer between two wallets,
`transferOut` is the vault's privileged external payout path,
`creditBalance` is the vault's privileged in-ledger credit path. -/
inductive PayAction where
  | tokenTransfer (source dest amount : Nat)
  | transferOut (recipient amount : Nat)
  | creditBalance (user amount : Nat)
  deriving DecidableEq, Repr

/-- TradeRecord account (programs/premarket-trade/src/state/trade_record.rs). -/
structure TradeRecord where
  trade_id : Nat
  buyer : Nat
  seller : Nat
  token_id : Nat
  collateral_mint : Nat
  filled_amount : Nat
  price : Nat
  buyer_collateral : Nat
  seller_collateral : Nat
  match_time : Int
  settled : Bool
  target_mint : Option Nat
  deriving DecidableEq, Repr

/-- The `trade_record.settled = true` write performed by both settle_trade and
cancel_trade (all other fields untouched). -/
def TradeRecord.markSettled (tr : TradeRecord) : TradeRecord :=
  ⟨tr.trade_id, tr.buyer, tr.seller, tr.token_id, tr.collateral_mint, tr.filled_amount,
   tr.price, tr.buyer_collateral, tr.seller_collateral, tr.match_time, true, tr.target_mint⟩

/-- TokenMarket account (programs/premarket-trade/src/state/token_market.rs),
restricted to the fields the settle/cancel handlers read. -/
structure TokenMarket where
  token_id : Nat
  real_mint : Option Nat
  settle_time_limit : Nat
  deriving DecidableEq, Repr

/-- Grace-period end used by both handlers:
`trade_record.match_time + (token_market.settle_time_limit as i64)`. -/
def grace_period_end (tr : TradeRecord) (tm : TokenMarket) : Int :=
  tr.match_time + (tm.settle_time_limit : Int)

/-- calculate_settlement_amounts (settle_trade.rs): trade value via checked
mul/div with PRICE_SCALE, optional seller reward in basis points, and the total
release `seller_collateral + seller_reward` via checked_add.  Division by the
nonzero constants PRICE_SCALE and 10000 cannot fail, so only the multiplication
and addition overflow checks remain. -/
def calculate_settlement_amounts (filled_amount price seller_collateral : Nat)
    (cfg : EconomicConfig) : Except TradingError (Nat × Nat) :=
  if filled_amount * price < U64SIZE then
    let trade_value := filled_amount * price / PRICE_SCALE
    if 0 < cfg.seller_reward_bps then
      if trade_value * cfg.seller_reward_bps < U64SIZE then
        let seller_reward := trade_value * cfg.seller_reward_bps / 10000
        if seller_collateral + seller_reward < U64SIZE then
          .ok (seller_reward, seller_collateral + seller_reward)
        else .error .MathOverflow
      else .error .MathOverflow
    else
      if seller_collateral + 0 < U64SIZE then .ok (0, seller_collateral + 0)
      else .error .MathOverflow
  else .error .MathOverflow

/-- calculate_cancellation_amounts (cancel_trade.rs): trade value via checked
mul/div, penalty in basis points capped by `min` at seller_collateral, buyer
total via checked_add and seller remainder via saturating_sub. -/
def calculate_cancellation_amounts (filled_amount price buyer_collateral seller_collateral : Nat)
    (cfg : EconomicConfig) : Except TradingError (Nat × Nat × Nat) :=
  if filled_amount * price < U64SIZE then
    let trade_value := filled_amount * price / PRICE_SCALE
    if trade_value * cfg.late_penalty_bps < U64SIZE then
      let penalty_amount := trade_value * cfg.late_penalty_bps / 10000
      let actual_penalty := min penalty_amount seller_collateral
      if buyer_collateral + actual_penalty < U64SIZE then
        .ok (actual_penalty, buyer_collateral + actual_penalty, seller_collateral - actual_penalty)
      else .error .MathOverflow
    else .error .MathOverflow
  else .error .MathOverflow

/-- The settle_trade instruction (settle_trade.rs), account constraints first in
declaration order, then the handler body:
1. `!trade_record.settled` else TradeAlreadySettled;
2. `trade_record.seller == seller.key()` else OnlySellerCanSettle;
3. `token_market.token_id == trade_record.token_id` else TokenMintMismatch;
4. `token_market.real_mint.is_some()` else TokenNotMapped;
5. `!config.paused` else TradingPaused;
6. `current_time <= grace_period_end` else GracePeriodExpired;
7. seller's real-token balance covers filled_amount else InsufficientBalance;
8. real-token transfer seller → buyer, then calculate_settlement_amounts and the
   transfer-out release of `seller_collateral + seller_reward` (skipped when 0);
9. `trade_record.settled = true`. -/
def settle_trade (paused : Bool) (tr : TradeRecord) (tm : TokenMarket) (cfg : EconomicConfig)
    (caller : Nat) (now : Int) (seller_token_balance : Nat) :
    Except TradingError (TradeRecord × List PayAction) :=
  if tr.settled then .error .TradeAlreadySettled
  else if caller ≠ tr.seller then .error .OnlySellerCanSettle
  else if tm.token_id ≠ tr.token_id then .error .TokenMintMismatch
  else if tm.real_mint.isNone then .error .TokenNotMapped
  else if paused then .error .TradingPaused
  else if ¬ now ≤ grace_period_end tr tm then .error .GracePeriodExpired
  else if seller_token_balance < tr.filled_amount then .error .InsufficientBalance
  else
    match calculate_settlement_amounts tr.filled_amount tr.price tr.seller_collateral cfg with
    | .error e => .error e
    | .ok (_, total_seller_release) =>
      .ok (tr.markSettled,
        .tokenTransfer tr.seller tr.buyer tr.filled_amount ::
          (if 0 < total_seller_release then [.transferOut tr.seller total_seller_release] else []))

/-- The cancel_trade instruction (cancel_trade.rs), account constraints first in
declaration order, then the handler body:
1. `!trade_record.settled` else TradeAlreadySettled;
2. `trade_record.buyer == buyer.key()` else OnlyBuyerCanCancel;
3. `token_market.token_id == trade_record.token_id` else TokenMintMismatch;
4. `!config.paused` else TradingPaused;
5. `current_time > grace_period_end` else GracePeriodActive;
6. calculate_cancellation_amounts, then transfer-out of `buyer_collateral +
   penalty` to the buyer and of `seller_collateral - penalty` to the seller
   (each skipped when 0);
7. `trade_record.settled = true`. -/
def cancel_trade (paused : Bool) (tr : TradeRecord) (tm : TokenMarket) (cfg : EconomicConfig)
    (caller : Nat) (now : Int) :
    Except TradingError (TradeRecord × List PayAction) :=
  if tr.settled then .error .TradeAlreadySettled
  else if caller ≠ tr.buyer then .error .OnlyBuyerCanCancel
  else if tm.token_id ≠ tr.token_id then .error .TokenMintMismatch
  else if paused then .error .TradingPaused
  else if ¬ grace_period_end tr tm < now then .error .GracePeriodActive
  else
    match calculate_cancellation_amounts tr.filled_amount tr.price tr.buyer_collateral
        tr.seller_collateral cfg with
    | .error e => .error e
    | .ok (_, buyer_total, seller_remaining) =>
      .ok (tr.markSettled,
        (if 0 < buyer_total then [PayAction.transferOut tr.buyer buyer_total] else []) ++
          (if 0 < seller_remaining then [PayAction.transferOut tr.seller seller_remaining] else []))

/-- One attempted resolution of a trade: either a settle_trade call or a
cancel_trade call, with its per-call environment (pause flag, calling wallet,
clock value, and for settle the seller's real-token balance). -/
inductive TradeOp where
  | settleOp (paused : Bool) (caller : Nat) (now : Int) (seller_token_balance : Nat)
  | cancelOp (paused : Bool) (caller : Nat) (now : Int)
  deriving DecidableEq, Repr

/-- Dispatch one TradeOp against the trade record. -/
def tradeStep (tm : TokenMarket) (cfg : EconomicConfig) (tr : TradeRecord) :
    TradeOp → Except TradingError (TradeRecord × List PayAction)
  | .settleOp paused caller now stb => settle_trade paused tr tm cfg caller now stb
  | .cancelOp paused caller now => cancel_trade paused tr tm cfg caller now

/-- Run a lifetime of settle/cancel attempts against a trade record: a failed
attempt leaves the record unchanged (host atomicity), a successful attempt
replaces it; the second component counts the successful attempts. -/
def runTrade (tm : TokenMarket) (cfg : EconomicConfig) :
    TradeRecord → List TradeOp → TradeRecord × Nat
  | tr, [] => (tr, 0)
  | tr, op :: ops =>
    match tradeStep tm cfg tr op with
    | .ok (tr2, _) =>
      let rest := runTrade tm cfg tr2 ops
      (rest.1, rest.2 + 1)
    | .error _ => runTrade tm cfg tr ops

/-- Order side (programs/premarket-trade/src/state/order_status.rs). -/
inductive OrderType where
  | Buy
  | Sell
  deriving DecidableEq, Repr

/-- Order status enum (programs/premarket-trade/src/state/order_status.rs). -/
inductive OrderStatusType where
  | Active
  | PartiallyFilled
  | Filled
  | Cancelled
  | Expired
  deriving DecidableEq, Repr

/-- OrderStatus account (programs/premarket-trade/src/state/order_status.rs). -/
structure OrderStatus where
  order_id : Nat
  token_market : Nat
  user : Nat
  order_type : OrderType
  original_quantity : Nat
  filled_quantity : Nat
  collateral_locked : Nat
  created_at : Int
  expires_at : Int
  status : OrderStatusType
  deriving DecidableEq, Repr

/-- OrderStatus::collateral_to_release: the exact pro-rata share of the locked
collateral for a fill quantity, `collateral_locked * fill_quantity /
original_quantity` (0 when original_quantity is 0). -/
def OrderStatus.collateral_to_release (st : OrderStatus) (fill_quantity : Nat) : Nat :=
  if st.original_quantity = 0 then 0
  else st.collateral_locked * fill_quantity / st.original_quantity

/-- OrderStatus::cancel_order: requires status Active or PartiallyFilled (else
OrderAlreadyFilled) and sets status to Cancelled. -/
def OrderStatus.cancel_order (st : OrderStatus) : Except TradingError OrderStatus :=
  if st.status = .Active ∨ st.status = .PartiallyFilled then
    .ok ⟨st.order_id, st.token_market, st.user, st.order_type, st.original_quantity,
      st.filled_quantity, st.collateral_locked, st.created_at, st.expires_at, .Cancelled⟩
  else .error .OrderAlreadyFilled

/-- The status-Cancelled rewrite performed by OrderStatus::cancel_order. -/
def OrderStatus.markCancelled (st : OrderStatus) : OrderStatus :=
  ⟨st.order_id, st.token_market, st.user, st.order_type, st.original_quantity,
    st.filled_quantity, st.collateral_locked, st.created_at, st.expires_at, .Cancelled⟩

/-- PreOrder, the off-chain signed order (programs/premarket-trade/src/common.rs). -/
structure PreOrder where
  trader : Nat
  collateral_token : Nat
  token_id : Nat
  amount : Nat
  price : Nat
  is_buy : Bool
  nonce : Nat
  deadline : Int
  deriving DecidableEq, Repr

/-- calculate_order_collateral (cancel_order.rs): checked trade value at
PRICE_SCALE, then the side's collateral ratio in basis points.  Division by the
nonzero constants cannot fail. -/
def calculate_order_collateral (amount price : Nat) (is_buy : Bool) (cfg : EconomicConfig) :
    Except TradingError Nat :=
  if amount * price < U64SIZE then
    let trade_value := amount * price / PRICE_SCALE
    let collateral_ratio := if is_buy then cfg.buyer_collateral_ratio else cfg.seller_collateral_ratio
    if trade_value * collateral_ratio < U64SIZE then
      .ok (trade_value * collateral_ratio / 10000)
    else .error .MathOverflow
  else .error .MathOverflow

/-- OrderStatus::initialize as invoked by the cancel_order handler for a fresh
order-status account: zero filled, status Active, collateral_locked set to the
collateral computed for the full order amount. -/
def OrderStatus.freshForOrder (order : PreOrder) (order_status_key : Nat)
    (collateral_amount : Nat) (now : Int) : OrderStatus :=
  ⟨order_status_key, order.token_id, order.trader,
    (if order.is_buy then OrderType.Buy else OrderType.Sell),
    order.amount, 0, collateral_amount, now, order.deadline, .Active⟩

/-- Steps 3-6 of the cancel_order handler, given the resolved OrderStatus:
not already Cancelled (OrderAlreadyCancelled), not fully filled
(OrderAlreadyFilled), collateral for the unfilled remainder recomputed with
calculate_order_collateral at the order's price, OrderStatus::cancel_order,
and a credit_balance CPI of the unlocked collateral (skipped when 0). -/
def cancel_order_resolved (cfg : EconomicConfig) (order : PreOrder) (st : OrderStatus) :
    Except TradingError (OrderStatus × List PayAction) :=
  if st.status = .Cancelled then .error .OrderAlreadyCancelled
  else if st.filled_quantity < st.original_quantity then
    match calculate_order_collateral (st.original_quantity - st.filled_quantity)
        order.price order.is_buy cfg with
    | .error e => .error e
    | .ok collateral_to_unlock =>
      match st.cancel_order with
      | .error e => .error e
      | .ok st2 =>
        .ok (st2, if 0 < collateral_to_unlock
          then [PayAction.creditBalance order.trader collateral_to_unlock] else [])
  else .error .OrderAlreadyFilled

/-- The cancel_order instruction (cancel_order.rs): account constraints
(pause flag, `trader.key() == order.trader`), then the handler: signature
verification, the deadline check `current_time <= order.deadline` (else
OrderExpired), lazy initialization of a fresh OrderStatus, and the resolved
cancellation steps.  `sig_valid` models the repository's
`verify_order_signature`, whose definition is not part of the sources
(modelled from the spec: each order's signature/authenticity must hold, else
the call is rejected). -/
def cancel_order (cfg : EconomicConfig) (paused : Bool) (signer : Nat) (sig_valid : Bool)
    (existing : Option OrderStatus) (order_status_key : Nat) (order : PreOrder) (now : Int) :
    Except TradingError (OrderStatus × List PayAction) :=
  if paused then .error .TradingPaused
  else if signer ≠ order.trader then .error .InvalidOrderOwner
  else if ¬ sig_valid then .error .InvalidSignature
  else if ¬ now ≤ order.deadline then .error .OrderExpired
  else
    match existing with
    | some st => cancel_order_resolved cfg order st
    | none =>
      match calculate_order_collateral order.amount order.price order.is_buy cfg with
      | .error e => .error e
      | .ok collateral_amount =>
        cancel_order_resolved cfg order
          (OrderStatus.freshForOrder order order_status_key collateral_amount now)

end Trading

end OrcaPremie

/-
  Theorems.
-/

namespace OrcaPremie.Vault

/-- Claim C8: for every user balance b and every amount a with a ≤ b, performing
slash_balance(a) followed by credit_balance(a) on the same record restores the
balance exactly to b. (The bound `b < U64SIZE` states that b is a u64 value.) -/
theorem slash_then_credit_restores (b a : Nat) (hb : b < U64SIZE) (ha : a ≤ b) :
    UserBalance.slashThenCredit ⟨b⟩ a = .ok ⟨b⟩ := by
  unfold UserBalance.slashThenCredit UserBalance.slash_balance UserBalance.credit_balance
  simp only [ha, if_true]
  have hsum : b - a + a = b := Nat.sub_add_cancel ha
  simp [hsum, hb]

/-- Witness for C8 at b = 7, a = 3. -/
theorem slash_then_credit_restores_witness :
    (7 : Nat) < U64SIZE ∧ (3 : Nat) ≤ 7 ∧
      UserBalance.slashThenCredit ⟨7⟩ 3 = .ok ⟨7⟩ :=
  ⟨by decide, by decide, slash_then_credit_restores 7 3 (by decide) (by decide)⟩

/-- Claim C9: slash_balance(a) fails with InsufficientBalance and leaves the balance
unchanged whenever a > b; credit_balance(a) fails with MathOverflow and leaves the
balance unchanged whenever b + a reaches the u64 bound; in all other cases they
succeed with b - a and b + a respectively. -/
theorem slash_credit_error_spec (b a : Nat) :
    (b < a → UserBalance.slash_balance ⟨b⟩ a = .error .InsufficientBalance ∧
      UserBalance.slashRun ⟨b⟩ a = ⟨b⟩) ∧
    (a ≤ b → UserBalance.slash_balance ⟨b⟩ a = .ok ⟨b - a⟩) ∧
    (U64SIZE ≤ b + a → UserBalance.credit_balance ⟨b⟩ a = .error .MathOverflow ∧
      UserBalance.creditRun ⟨b⟩ a = ⟨b⟩) ∧
    (b + a < U64SIZE → UserBalance.credit_balance ⟨b⟩ a = .ok ⟨b + a⟩) := by
  refine ⟨fun h => ?_, fun h => ?_, fun h => ?_, fun h => ?_⟩
  · have hna : ¬ a ≤ (⟨b⟩ : UserBalance).balance := by simpa using Nat.not_le_of_lt h
    unfold UserBalance.slashRun UserBalance.slash_balance
    simp [hna]
  · unfold UserBalance.slash_balance
    simp [h]
  · have hn : ¬ (⟨b⟩ : UserBalance).balance + a < U64SIZE := by simpa using Nat.not_lt_of_le h
    unfold UserBalance.creditRun UserBalance.credit_balance
    simp [hn]
  · unfold UserBalance.credit_balance
    simp [h]

/-- A list element is at most the list sum. -/
theorem getD_le_sum (l : List Nat) (u : Nat) : l.getD u 0 ≤ l.sum := by
  induction l generalizing u with
  | nil => simp
  | cons b t ih =>
    cases u with
    | zero => simp
    | succ n =>
      have := ih n
      simp only [List.getD_cons_succ, List.sum_cons]
      omega

/-- Effect of List.set on the list sum, stated additively to avoid Nat truncation. -/
theorem sum_set_add (l : List Nat) (u x : Nat) (h : u < l.length) :
    (l.set u x).sum + l.getD u 0 = l.sum + x := by
  induction l generalizing u with
  | nil => simp at h
  | cons b t ih =>
    cases u with
    | zero => simp [List.sum_cons]; omega
    | succ n =>
      have hn : n < t.length := by simpa using h
      have h2 := ih n hn
      simp only [List.set_cons_succ, List.sum_cons, List.getD_cons_succ]
      omega

/-- List.set at one index leaves getD at a different index unchanged. -/
theorem getD_set_ne (l : List Nat) (u v x : Nat) (huv : u ≠ v) :
    (l.set u x).getD v 0 = l.getD v 0 := by
  induction l generalizing u v with
  | nil => simp
  | cons b t ih =>
    cases u with
    | zero =>
      cases v with
      | zero => exact absurd rfl huv
      | succ m => simp
    | succ n =>
      cases v with
      | zero => simp
      | succ m =>
        have : n ≠ m := fun hc => huv (by rw [hc])
        simp only [List.set_cons_succ, List.getD_cons_succ]
        exact ih n m this

/-- Success shape of the deposit instruction. -/
theorem applyOp_deposit_ok {s s1 : LedgerState} {u a : Nat}
    (h : applyOp s (.deposit u a) = .ok s1) :
    u < s.balances.length ∧ a ≠ 0 ∧ bal s u + a < U64SIZE ∧
      s.total_deposits + a < U64SIZE ∧
      s1 = ⟨s.balances.set u (bal s u + a), s.total_deposits + a⟩ := by
  simp only [applyOp] at h
  split at h
  case isTrue hu =>
    split at h
    case isTrue => exact Except.noConfusion h
    case isFalse ha =>
      split at h
      case h_1 => exact Except.noConfusion h
      case h_2 ub heq =>
        unfold UserBalance.credit_balance at heq
        split at heq
        case isTrue h64 =>
          injection heq with hub
          subst hub
          split at h
          case h_1 => exact Except.noConfusion h
          case h_2 va heq2 =>
            unfold VaultAuthority.add_deposit at heq2
            split at heq2
            case isTrue h64t =>
              injection heq2 with hva
              subst hva
              injection h with h1
              exact ⟨hu, ha, h64, h64t, h1.symm⟩
            case isFalse => exact Except.noConfusion heq2
        case isFalse => exact Except.noConfusion heq
  case isFalse => exact Except.noConfusion h

/-- Success shape of the withdraw instruction. -/
theorem applyOp_withdraw_ok {s s1 : LedgerState} {u a : Nat}
    (h : applyOp s (.withdraw u a) = .ok s1) :
    u < s.balances.length ∧ a ≠ 0 ∧ a ≤ bal s u ∧ a ≤ s.total_deposits ∧
      s1 = ⟨s.balances.set u (bal s u - a), s.total_deposits - a⟩ := by
  simp only [applyOp] at h
  split at h
  case isTrue hu =>
    split at h
    case isTrue => exact Except.noConfusion h
    case isFalse hge =>
      split at h
      case isTrue => exact Except.noConfusion h
      case isFalse ha =>
        split at h
        case h_1 => exact Except.noConfusion h
        case h_2 ub heq =>
          unfold UserBalance.slash_balance at heq
          split at heq
          case isTrue hle =>
            injection heq with hub
            subst hub
            split at h
            case h_1 => exact Except.noConfusion h
            case h_2 va heq2 =>
              unfold VaultAuthority.subtract_deposit at heq2
              split at heq2
              case isTrue hlet =>
                injection heq2 with hva
                subst hva
                injection h with h1
                exact ⟨hu, ha, hle, hlet, h1.symm⟩
              case isFalse => exact Except.noConfusion heq2
          case isFalse => exact Except.noConfusion heq
  case isFalse => exact Except.noConfusion h

/-- Success shape of the privileged credit_balance instruction. -/
theorem applyOp_credit_ok {s s1 : LedgerState} {u a : Nat}
    (h : applyOp s (.credit u a) = .ok s1) :
    u < s.balances.length ∧ a ≠ 0 ∧ bal s u + a < U64SIZE ∧
      s1 = ⟨s.balances.set u (bal s u + a), s.total_deposits⟩ := by
  simp only [applyOp] at h
  split at h
  case isTrue hu =>
    split at h
    case isTrue => exact Except.noConfusion h
    case isFalse ha =>
      split at h
      case h_1 => exact Except.noConfusion h
      case h_2 ub heq =>
        unfold UserBalance.credit_balance at heq
        split at heq
        case isTrue h64 =>
          injection heq with hub
          subst hub
          injection h with h1
          exact ⟨hu, ha, h64, h1.symm⟩
        case isFalse => exact Except.noConfusion heq
  case isFalse => exact Except.noConfusion h

/-- Success shape of the privileged slash_balance instruction. -/
theorem applyOp_slash_ok {s s1 : LedgerState} {u a : Nat}
    (h : applyOp s (.slash u a) = .ok s1) :
    u < s.balances.length ∧ a ≠ 0 ∧ a ≤ bal s u ∧
      s1 = ⟨s.balances.set u (bal s u - a), s.total_deposits⟩ := by
  simp only [applyOp] at h
  split at h
  case isTrue hu =>
    split at h
    case isTrue => exact Except.noConfusion h
    case isFalse hge =>
      split at h
      case isTrue => exact Except.noConfusion h
      case isFalse ha =>
        split at h
        case h_1 => exact Except.noConfusion h
        case h_2 ub heq =>
          unfold UserBalance.slash_balance at heq
          split at heq
          case isTrue hle =>
            injection heq with hub
            subst hub
            injection h with h1
            exact ⟨hu, ha, hle, h1.symm⟩
          case isFalse => exact Except.noConfusion heq
  case isFalse => exact Except.noConfusion h

/-- Success shape of the privileged transfer_balance instruction. -/
theorem applyOp_transferBalance_ok {s s1 : LedgerState} {u v a : Nat}
    (h : applyOp s (.transferBalance u v a) = .ok s1) :
    u < s.balances.length ∧ v < s.balances.length ∧ a ≠ 0 ∧ u ≠ v ∧ a ≤ bal s u ∧
      bal s v + a < U64SIZE ∧
      s1 = ⟨(s.balances.set u (bal s u - a)).set v (bal s v + a), s.total_deposits⟩ := by
  simp only [applyOp] at h
  split at h
  case isTrue huv =>
    split at h
    case isTrue => exact Except.noConfusion h
    case isFalse hge =>
      split at h
      case isTrue => exact Except.noConfusion h
      case isFalse ha =>
        split at h
        case isTrue => exact Except.noConfusion h
        case isFalse hne =>
          split at h
          case h_1 => exact Except.noConfusion h
          case h_2 ubFrom heq =>
            unfold UserBalance.slash_balance at heq
            split at heq
            case isTrue hle =>
              injection heq with hub
              subst hub
              split at h
              case h_1 => exact Except.noConfusion h
              case h_2 ubTo heq2 =>
                unfold UserBalance.credit_balance at heq2
                split at heq2
                case isTrue h64 =>
                  injection heq2 with hub2
                  subst hub2
                  injection h with h1
                  exact ⟨huv.1, huv.2, ha, hne, hle, h64, h1.symm⟩
                case isFalse => exact Except.noConfusion heq2
            case isFalse => exact Except.noConfusion heq
  case isFalse => exact Except.noConfusion h

/-- Success shape of the privileged transfer_out instruction. -/
theorem applyOp_transferOut_ok {s s1 : LedgerState} {u a : Nat}
    (h : applyOp s (.transferOut u a) = .ok s1) :
    u < s.balances.length ∧ a ≠ 0 ∧ a ≤ bal s u ∧
      s1 = ⟨s.balances.set u (bal s u - a), s.total_deposits⟩ := by
  simp only [applyOp] at h
  split at h
  case isTrue hu =>
    split at h
    case isTrue => exact Except.noConfusion h
    case isFalse hge =>
      split at h
      case isTrue => exact Except.noConfusion h
      case isFalse ha =>
        split at h
        case isTrue hle =>
          injection h with h1
          exact ⟨hu, ha, hle, h1.symm⟩
        case isFalse => exact Except.noConfusion h
  case isFalse => exact Except.noConfusion h

/-- One successful vault operation whose credits stay within the custody gap
preserves the invariant `Σ balances ≤ total_deposits`. -/
theorem applyOp_preserves_invariant {s s1 : LedgerState} {op : VaultOp}
    (hok : applyOp s op = .ok s1) (hcg : creditWithinGap s op)
    (hinv : sumBalances s ≤ s.total_deposits) :
    sumBalances s1 ≤ s1.total_deposits := by
  cases op with
  | deposit u a =>
    obtain ⟨hu, _, _, _, hs1⟩ := applyOp_deposit_ok hok
    subst hs1
    have hset := sum_set_add s.balances u (bal s u + a) hu
    simp only [sumBalances, bal] at *
    omega
  | withdraw u a =>
    obtain ⟨hu, _, hle, hlet, hs1⟩ := applyOp_withdraw_ok hok
    subst hs1
    have hset := sum_set_add s.balances u (bal s u - a) hu
    have helem := getD_le_sum s.balances u
    simp only [sumBalances, bal] at *
    omega
  | credit u a =>
    obtain ⟨hu, _, _, hs1⟩ := applyOp_credit_ok hok
    subst hs1
    have hset := sum_set_add s.balances u (bal s u + a) hu
    simp only [creditWithinGap] at hcg
    simp only [sumBalances, bal] at *
    omega
  | slash u a =>
    obtain ⟨hu, _, hle, hs1⟩ := applyOp_slash_ok hok
    subst hs1
    have hset := sum_set_add s.balances u (bal s u - a) hu
    have helem := getD_le_sum s.balances u
    simp only [sumBalances, bal] at *
    omega
  | transferBalance u v a =>
    obtain ⟨hu, hv, _, hne, hle, _, hs1⟩ := applyOp_transferBalance_ok hok
    subst hs1
    have hset1 := sum_set_add s.balances u (bal s u - a) hu
    have hlen : v < (s.balances.set u (bal s u - a)).length := by
      simpa using hv
    have hset2 := sum_set_add (s.balances.set u (bal s u - a)) v (bal s v + a) hlen
    have hgd := getD_set_ne s.balances u v (bal s u - a) hne
    have helem := getD_le_sum s.balances u
    rw [hgd] at hset2
    simp only [sumBalances, bal] at *
    omega
  | transferOut u a =>
    obtain ⟨hu, _, hle, hs1⟩ := applyOp_transferOut_ok hok
    subst hs1
    have hset := sum_set_add s.balances u (bal s u - a) hu
    have helem := getD_le_sum s.balances u
    simp only [sumBalances, bal] at *
    omega

/-- Claim C1 (counterexample): starting from the initial state with one user and
zero custody, the sequence deposit(1); credit_balance(2) succeeds step by step
and ends with Σ balances = 3 strictly above total_deposits = 1 — the vault
never caps a privileged credit at the custody gap, so the invariant
"Σ UserBalance.balance ≤ VaultAuthority.total_deposits after any sequence of
successful operations" fails as stated. -/
theorem custody_invariant_counterexample :
    runOps ⟨[0], 0⟩ [VaultOp.deposit 0 1, VaultOp.credit 0 2] = .ok ⟨[3], 1⟩ ∧
      ¬ sumBalances ⟨[3], 1⟩ ≤ LedgerState.total_deposits ⟨[3], 1⟩ :=
  ⟨rfl, by decide⟩

/-- Claim C1 (amended): across any sequence of successful deposit, withdraw,
credit_balance, slash_balance, transfer_balance and transfer_out operations in
which every credit_balance credits at most the current custody gap
`total_deposits - Σ balances`, the invariant Σ balances ≤ total_deposits holds
at all times. -/
theorem custody_invariant_goodRun {s s2 : LedgerState} {ops : List VaultOp}
    (h : GoodRun s ops s2) (hinv : sumBalances s ≤ s.total_deposits) :
    sumBalances s2 ≤ s2.total_deposits := by
  induction h with
  | nil s => exact hinv
  | cons hok hcg _ ih => exact ih (applyOp_preserves_invariant hok hcg hinv)

/-- Witness for the amended C1: a concrete good run deposit(5) from the empty
one-user state, for which the invariant is preserved. -/
theorem custody_invariant_goodRun_witness :
    sumBalances ⟨[0], 0⟩ ≤ LedgerState.total_deposits ⟨[0], 0⟩ ∧
      sumBalances ⟨[5], 5⟩ ≤ LedgerState.total_deposits ⟨[5], 5⟩ := by
  have hrun : GoodRun ⟨[0], 0⟩ [VaultOp.deposit 0 5] ⟨[5], 5⟩ :=
    GoodRun.cons rfl trivial (GoodRun.nil _)
  exact ⟨by decide, custody_invariant_goodRun hrun (by decide)⟩

/-- Claim C7: total_deposits is left unchanged by every successful internal
credit_balance, slash_balance and transfer_balance operation (so for a given
token it can change only on the deposit, withdraw and transfer-out paths; the
transfer_out handler, as written, also never touches it). -/
theorem total_deposits_frame (s s2 : LedgerState) (u v a : Nat) :
    (applyOp s (.credit u a) = .ok s2 → s2.total_deposits = s.total_deposits) ∧
    (applyOp s (.slash u a) = .ok s2 → s2.total_deposits = s.total_deposits) ∧
    (applyOp s (.transferBalance u v a) = .ok s2 → s2.total_deposits = s.total_deposits) ∧
    (applyOp s (.transferOut u a) = .ok s2 → s2.total_deposits = s.total_deposits) := by
  refine ⟨fun h => ?_, fun h => ?_, fun h => ?_, fun h => ?_⟩
  · obtain ⟨_, _, _, hs⟩ := applyOp_credit_ok h
    subst hs
    rfl
  · obtain ⟨_, _, _, hs⟩ := applyOp_slash_ok h
    subst hs
    rfl
  · obtain ⟨_, _, _, _, _, _, hs⟩ := applyOp_transferBalance_ok h
    subst hs
    rfl
  · obtain ⟨_, _, _, hs⟩ := applyOp_transferOut_ok h
    subst hs
    rfl

/-- Witness for C7 at a concrete two-user state with custody 10. -/
theorem total_deposits_frame_witness :
    LedgerState.total_deposits ⟨[6, 0], 10⟩ = LedgerState.total_deposits ⟨[5, 0], 10⟩ ∧
    LedgerState.total_deposits ⟨[4, 0], 10⟩ = LedgerState.total_deposits ⟨[5, 0], 10⟩ ∧
    LedgerState.total_deposits ⟨[3, 2], 10⟩ = LedgerState.total_deposits ⟨[5, 0], 10⟩ ∧
    LedgerState.total_deposits ⟨[4, 0], 10⟩ = LedgerState.total_deposits ⟨[5, 0], 10⟩ :=
  ⟨(total_deposits_frame ⟨[5, 0], 10⟩ ⟨[6, 0], 10⟩ 0 1 1).1 rfl,
   (total_deposits_frame ⟨[5, 0], 10⟩ ⟨[4, 0], 10⟩ 0 1 1).2.1 rfl,
   (total_deposits_frame ⟨[5, 0], 10⟩ ⟨[3, 2], 10⟩ 0 1 2).2.2.1 rfl,
   (total_deposits_frame ⟨[5, 0], 10⟩ ⟨[4, 0], 10⟩ 0 1 1).2.2.2 rfl⟩

/-- Characterization of the backward scan: it returns `p` exactly when some index
`i ≤ n` loads `p`, `p` is not an infrastructure identity, and every loadable
instruction strictly between `i` and `n` is an infrastructure identity. -/
theorem scanForCaller_ok_iff (chain : Nat → Option Nat) :
    ∀ n p, scanForCaller chain n = .ok p ↔
      ∃ i, i ≤ n ∧ chain i = some p ∧ system_programs.contains p = false ∧
        ∀ j, i < j → j ≤ n → ∀ q, chain j = some q → system_programs.contains q = true := by
  intro n
  induction n with
  | zero =>
    intro p
    constructor
    · intro h
      cases hc : chain 0 with
      | none =>
        simp only [scanForCaller, hc] at h
        exact Except.noConfusion h
      | some q =>
        simp only [scanForCaller, hc] at h
        by_cases hq : system_programs.contains q = true
        · rw [if_pos hq] at h
          exact Except.noConfusion h
        · rw [if_neg hq] at h
          injection h with hpq
          subst hpq
          refine ⟨0, Nat.le_refl 0, hc, by simpa using hq, ?_⟩
          intro j hj1 hj2 r _
          exact absurd (Nat.lt_of_lt_of_le hj1 hj2) (Nat.lt_irrefl 0)
    · rintro ⟨i, hi, hci, hp, _⟩
      have hi0 : i = 0 := Nat.le_zero.mp hi
      subst hi0
      simp only [scanForCaller, hci]
      have hmem : p ∉ system_programs := by simpa using hp
      simp [hmem]
  | succ n ih =>
    intro p
    constructor
    · intro h
      cases hc : chain (n + 1) with
      | none =>
        simp only [scanForCaller, hc] at h
        obtain ⟨i, hi, hci, hp, hall⟩ := (ih p).mp h
        refine ⟨i, Nat.le_succ_of_le hi, hci, hp, ?_⟩
        intro j hj1 hj2 q hq
        rcases Nat.lt_or_ge j (n + 1) with hlt | hge
        · exact hall j hj1 (Nat.lt_succ_iff.mp hlt) q hq
        · have hj : j = n + 1 := Nat.le_antisymm hj2 hge
          subst hj
          rw [hc] at hq
          exact Option.noConfusion hq
      | some q =>
        simp only [scanForCaller, hc] at h
        by_cases hq : system_programs.contains q = true
        · rw [if_pos hq] at h
          obtain ⟨i, hi, hci, hp, hall⟩ := (ih p).mp h
          refine ⟨i, Nat.le_succ_of_le hi, hci, hp, ?_⟩
          intro j hj1 hj2 r hr
          rcases Nat.lt_or_ge j (n + 1) with hlt | hge
          · exact hall j hj1 (Nat.lt_succ_iff.mp hlt) r hr
          · have hj : j = n + 1 := Nat.le_antisymm hj2 hge
            subst hj
            rw [hc] at hr
            injection hr with hr2
            subst hr2
            exact hq
        · rw [if_neg hq] at h
          injection h with hpq
          subst hpq
          refine ⟨n + 1, Nat.le_refl _, hc, by simpa using hq, ?_⟩
          intro j hj1 hj2 r _
          exact absurd (Nat.lt_of_lt_of_le hj1 hj2) (Nat.lt_irrefl _)
    · rintro ⟨i, hi, hci, hp, hall⟩
      cases hc : chain (n + 1) with
      | none =>
        simp only [scanForCaller, hc]
        apply (ih p).mpr
        have hi2 : i ≤ n := by
          rcases Nat.lt_or_ge i (n + 1) with hlt | hge
          · exact Nat.lt_succ_iff.mp hlt
          · exfalso
            have hieq : i = n + 1 := Nat.le_antisymm hi hge
            subst hieq
            rw [hc] at hci
            exact Option.noConfusion hci
        exact ⟨i, hi2, hci, hp, fun j hj1 hj2 r hr => hall j hj1 (Nat.le_succ_of_le hj2) r hr⟩
      | some q =>
        simp only [scanForCaller, hc]
        by_cases hq : system_programs.contains q = true
        · rw [if_pos hq]
          apply (ih p).mpr
          have hi2 : i ≤ n := by
            rcases Nat.lt_or_ge i (n + 1) with hlt | hge
            · exact Nat.lt_succ_iff.mp hlt
            · exfalso
              have hieq : i = n + 1 := Nat.le_antisymm hi hge
              subst hieq
              rw [hc] at hci
              injection hci with h2
              subst h2
              rw [hp] at hq
              exact Bool.noConfusion hq
          exact ⟨i, hi2, hci, hp, fun j hj1 hj2 r hr => hall j hj1 (Nat.le_succ_of_le hj2) r hr⟩
        · rw [if_neg hq]
          have hi2 : i = n + 1 := by
            rcases Nat.lt_or_ge i (n + 1) with hlt | hge
            · exact absurd (hall (n + 1) hlt (Nat.le_refl _) q hc) (by simpa using hq)
            · exact Nat.le_antisymm hi hge
          subst hi2
          rw [hc] at hci
          injection hci with h2
          rw [h2]

/-- Characterization of the unresolved scan: it fails with FailedToLoadInstruction
exactly when every loadable instruction at an index `≤ n` is infrastructure. -/
theorem scanForCaller_error_iff (chain : Nat → Option Nat) :
    ∀ n, scanForCaller chain n = .error .FailedToLoadInstruction ↔
      ∀ i, i ≤ n → ∀ q, chain i = some q → system_programs.contains q = true := by
  intro n
  induction n with
  | zero =>
    constructor
    · intro h i hi q hq
      have hi0 : i = 0 := Nat.le_zero.mp hi
      subst hi0
      simp only [scanForCaller, hq] at h
      by_cases hc : system_programs.contains q = true
      · exact hc
      · rw [if_neg hc] at h
        exact Except.noConfusion h
    · intro hall
      cases hc : chain 0 with
      | none => simp only [scanForCaller, hc]
      | some q =>
        have hcq := hall 0 (Nat.le_refl 0) q hc
        have hmem : q ∈ system_programs := by simpa using hcq
        simp only [scanForCaller, hc]
        simp [hmem]
  | succ n ih =>
    constructor
    · intro h i hi q hq
      cases hc : chain (n + 1) with
      | none =>
        simp only [scanForCaller, hc] at h
        rcases Nat.lt_or_ge i (n + 1) with hlt | hge
        · exact (ih.mp h) i (Nat.lt_succ_iff.mp hlt) q hq
        · have hieq : i = n + 1 := Nat.le_antisymm hi hge
          subst hieq
          rw [hc] at hq
          exact Option.noConfusion hq
      | some r =>
        simp only [scanForCaller, hc] at h
        by_cases hr : system_programs.contains r = true
        · rw [if_pos hr] at h
          rcases Nat.lt_or_ge i (n + 1) with hlt | hge
          · exact (ih.mp h) i (Nat.lt_succ_iff.mp hlt) q hq
          · have hieq : i = n + 1 := Nat.le_antisymm hi hge
            subst hieq
            rw [hc] at hq
            injection hq with h2
            subst h2
            exact hr
        · rw [if_neg hr] at h
          exact Except.noConfusion h
    · intro hall
      cases hc : chain (n + 1) with
      | none =>
        simp only [scanForCaller, hc]
        exact ih.mpr fun i hi q hq => hall i (Nat.le_succ_of_le hi) q hq
      | some r =>
        have hr := hall (n + 1) (Nat.le_refl _) r hc
        simp only [scanForCaller, hc]
        rw [if_pos hr]
        exact ih.mpr fun i hi q hq => hall i (Nat.le_succ_of_le hi) q hq

/-- Claim C3: get_cpi_caller_program_id scans indices from current_index + 1 down
to 0 and returns the program identity of the first loadable instruction that is
not one of the fixed infrastructure identities (system program, compute-budget
program, instructions-sysvar program); if every loadable instruction in that
range is infrastructure, it fails with FailedToLoadInstruction. -/
theorem get_cpi_caller_program_id_spec (chain : Nat → Option Nat) (current_index : Nat) :
    (∀ p, get_cpi_caller_program_id chain current_index = .ok p ↔
       ∃ i, i ≤ current_index + 1 ∧ chain i = some p ∧
         system_programs.contains p = false ∧
         ∀ j, i < j → j ≤ current_index + 1 → ∀ q, chain j = some q →
           system_programs.contains q = true) ∧
    (get_cpi_caller_program_id chain current_index = .error .FailedToLoadInstruction ↔
       ∀ i, i ≤ current_index + 1 → ∀ q, chain i = some q →
         system_programs.contains q = true) :=
  ⟨fun p => scanForCaller_ok_iff chain (current_index + 1) p,
   scanForCaller_error_iff chain (current_index + 1)⟩

/-- Witness for C9: both failure modes and both success modes at concrete inputs. -/
theorem slash_credit_error_spec_witness :
    (UserBalance.slash_balance ⟨2⟩ 5 = .error .InsufficientBalance ∧
      UserBalance.slashRun ⟨2⟩ 5 = ⟨2⟩) ∧
    (UserBalance.slash_balance ⟨5⟩ 2 = .ok ⟨3⟩) ∧
    (UserBalance.credit_balance ⟨U64SIZE - 1⟩ 1 = .error .MathOverflow ∧
      UserBalance.creditRun ⟨U64SIZE - 1⟩ 1 = ⟨U64SIZE - 1⟩) ∧
    (UserBalance.credit_balance ⟨5⟩ 2 = .ok ⟨7⟩) :=
  ⟨(slash_credit_error_spec 2 5).1 (by decide),
   (slash_credit_error_spec 5 2).2.1 (by decide),
   (slash_credit_error_spec (U64SIZE - 1) 1).2.2.1 (by norm_num [U64SIZE]),
   (slash_credit_error_spec 5 2).2.2.2 (by decide)⟩

end OrcaPremie.Vault

namespace OrcaPremie.Trading

/-- calculate_settlement_amounts can only fail with MathOverflow. -/
theorem calculate_settlement_amounts_error {fa p sc : Nat} {cfg : EconomicConfig}
    {e : TradingError} (h : calculate_settlement_amounts fa p sc cfg = .error e) :
    e = .MathOverflow := by
  simp only [calculate_settlement_amounts] at h
  split at h
  case isFalse =>
    injection h with h2
    exact h2.symm
  case isTrue =>
    split at h
    case isTrue =>
      split at h
      case isFalse =>
        injection h with h2
        exact h2.symm
      case isTrue =>
        split at h
        case isTrue => exact Except.noConfusion h
        case isFalse =>
          injection h with h2
          exact h2.symm
    case isFalse =>
      split at h
      case isTrue => exact Except.noConfusion h
      case isFalse =>
        injection h with h2
        exact h2.symm

/-- calculate_cancellation_amounts can only fail with MathOverflow. -/
theorem calculate_cancellation_amounts_error {fa p bc sc : Nat} {cfg : EconomicConfig}
    {e : TradingError} (h : calculate_cancellation_amounts fa p bc sc cfg = .error e) :
    e = .MathOverflow := by
  simp only [calculate_cancellation_amounts] at h
  split at h
  case isFalse =>
    injection h with h2
    exact h2.symm
  case isTrue =>
    split at h
    case isFalse =>
      injection h with h2
      exact h2.symm
    case isTrue =>
      split at h
      case isTrue => exact Except.noConfusion h
      case isFalse =>
        injection h with h2
        exact h2.symm

/-- Claim C2: on every successful cancellation computation, the penalty equals
min((filled_amount * price / 1_000_000) * late_penalty_bps / 10000,
seller_collateral), the buyer payout is buyer_collateral + penalty, the seller
payout is seller_collateral - penalty, and the two payouts sum exactly to
buyer_collateral + seller_collateral (no value created or destroyed). -/
theorem cancellation_amounts_spec (fa p bc sc : Nat) (cfg : EconomicConfig)
    (pen bt sr : Nat)
    (h : calculate_cancellation_amounts fa p bc sc cfg = .ok (pen, bt, sr)) :
    pen = min (fa * p / PRICE_SCALE * cfg.late_penalty_bps / 10000) sc ∧
    bt = bc + pen ∧ sr = sc - pen ∧ bt + sr = bc + sc := by
  simp only [calculate_cancellation_amounts] at h
  split at h
  case isFalse => exact Except.noConfusion h
  case isTrue h1 =>
    split at h
    case isFalse => exact Except.noConfusion h
    case isTrue h2 =>
      split at h
      case isFalse => exact Except.noConfusion h
      case isTrue h3 =>
        injection h with h4
        simp only [Prod.mk.injEq] at h4
        obtain ⟨e1, e2, e3⟩ := h4
        subst e1
        subst e2
        subst e3
        refine ⟨rfl, rfl, rfl, ?_⟩
        have hcap : min (fa * p / PRICE_SCALE * cfg.late_penalty_bps / 10000) sc ≤ sc :=
          Nat.min_le_right _ _
        omega

/-- Witness for C2 with the spec scenario late_penalty_bps = 10000 and
seller_collateral = 1000: filled 5 at price 1_000_000 gives penalty 5, buyer
payout 105, seller payout 995, summing to the original 1100. -/
theorem cancellation_amounts_spec_witness :
    (5 : Nat) = min (5 * 1000000 / PRICE_SCALE *
      (EconomicConfig.late_penalty_bps ⟨1000, 1000000000000, 10000, 10000, 0, 10000⟩) / 10000) 1000 ∧
    (105 : Nat) = 100 + 5 ∧ (995 : Nat) = 1000 - 5 ∧ (105 : Nat) + 995 = 100 + 1000 :=
  cancellation_amounts_spec 5 1000000 100 1000 ⟨1000, 1000000000000, 10000, 10000, 0, 10000⟩
    5 105 995 (by rfl)

end OrcaPremie.Trading

namespace OrcaPremie.Trading

/-- Claim C4: for an unsettled trade whose non-timing preconditions hold, settle
fails with GracePeriodExpired at any time strictly greater than
match_time + settle_time_limit and never fails with that error at any time ≤
that bound; cancel-after-timeout fails with GracePeriodActive at any time ≤
match_time + settle_time_limit and never fails with that error strictly after
the bound. -/
theorem settle_cancel_timing_spec (paused pausedC : Bool) (tr : TradeRecord)
    (tm : TokenMarket) (cfg : EconomicConfig) (callerS callerC : Nat)
    (nowS nowC : Int) (stb : Nat)
    (hset : tr.settled = false) (htok : tm.token_id = tr.token_id) :
    (callerS = tr.seller → tm.real_mint.isNone = false → paused = false →
      (grace_period_end tr tm < nowS →
        settle_trade paused tr tm cfg callerS nowS stb = .error .GracePeriodExpired) ∧
      (nowS ≤ grace_period_end tr tm →
        settle_trade paused tr tm cfg callerS nowS stb ≠ .error .GracePeriodExpired)) ∧
    (callerC = tr.buyer → pausedC = false →
      (nowC ≤ grace_period_end tr tm →
        cancel_trade pausedC tr tm cfg callerC nowC = .error .GracePeriodActive) ∧
      (grace_period_end tr tm < nowC →
        cancel_trade pausedC tr tm cfg callerC nowC ≠ .error .GracePeriodActive)) := by
  constructor
  · intro hsell hmap hpause
    subst hpause
    constructor
    · intro hlate
      unfold settle_trade
      rw [if_neg (by simp [hset])]
      rw [if_neg (not_not_intro hsell)]
      rw [if_neg (not_not_intro htok)]
      rw [if_neg (by simp [hmap])]
      rw [if_neg (by simp)]
      rw [if_pos (not_le.mpr hlate)]
    · intro hin
      unfold settle_trade
      rw [if_neg (by simp [hset])]
      rw [if_neg (not_not_intro hsell)]
      rw [if_neg (not_not_intro htok)]
      rw [if_neg (by simp [hmap])]
      rw [if_neg (by simp)]
      rw [if_neg (not_not_intro hin)]
      intro hcontra
      split at hcontra
      case isTrue =>
        injection hcontra with h2
        exact TradingError.noConfusion h2
      case isFalse =>
        split at hcontra
        case h_1 heq =>
          injection hcontra with h2
          subst h2
          exact TradingError.noConfusion (calculate_settlement_amounts_error heq)
        case h_2 => exact Except.noConfusion hcontra
  · intro hbuy hpause
    subst hpause
    constructor
    · intro hin
      unfold cancel_trade
      rw [if_neg (by simp [hset])]
      rw [if_neg (not_not_intro hbuy)]
      rw [if_neg (not_not_intro htok)]
      rw [if_neg (by simp)]
      rw [if_pos (not_lt.mpr hin)]
    · intro hlate
      unfold cancel_trade
      rw [if_neg (by simp [hset])]
      rw [if_neg (not_not_intro hbuy)]
      rw [if_neg (not_not_intro htok)]
      rw [if_neg (by simp)]
      rw [if_neg (not_not_intro hlate)]
      intro hcontra
      split at hcontra
      case h_1 heq =>
        injection hcontra with h2
        subst h2
        exact TradingError.noConfusion (calculate_cancellation_amounts_error heq)
      case h_2 => exact Except.noConfusion hcontra

/-- Witness for C4 on a concrete trade matched at time 0 in a market with a
100-second settle window: settle at time 101 fails with GracePeriodExpired and
cancel at time 99 fails with GracePeriodActive. -/
theorem settle_cancel_timing_spec_witness :
    settle_trade false ⟨0, 1, 2, 3, 4, 5, 1000000, 100, 100, 0, false, none⟩
        ⟨3, some 9, 100⟩ ⟨1000, 1000000000000, 10000, 10000, 0, 10000⟩ 2 101 10 =
      .error .GracePeriodExpired ∧
    cancel_trade false ⟨0, 1, 2, 3, 4, 5, 1000000, 100, 100, 0, false, none⟩
        ⟨3, some 9, 100⟩ ⟨1000, 1000000000000, 10000, 10000, 0, 10000⟩ 1 99 =
      .error .GracePeriodActive := by
  have hmain := settle_cancel_timing_spec false false
    ⟨0, 1, 2, 3, 4, 5, 1000000, 100, 100, 0, false, none⟩ ⟨3, some 9, 100⟩
    ⟨1000, 1000000000000, 10000, 10000, 0, 10000⟩ 2 1 101 99 10 rfl rfl
  exact ⟨(hmain.1 rfl rfl rfl).1 (by decide), (hmain.2 rfl rfl).1 (by decide)⟩

end OrcaPremie.Trading

namespace OrcaPremie.Trading

/-- A settled trade record makes every settle or cancel attempt fail with
TradeAlreadySettled. -/
theorem tradeStep_settled_error (tm : TokenMarket) (cfg : EconomicConfig)
    (tr : TradeRecord) (op : TradeOp) (h : tr.settled = true) :
    tradeStep tm cfg tr op = .error .TradeAlreadySettled := by
  cases op with
  | settleOp paused caller now stb =>
    simp only [tradeStep, settle_trade]
    rw [if_pos h]
  | cancelOp paused caller now =>
    simp only [tradeStep, cancel_trade]
    rw [if_pos h]

/-- A successful settle or cancel starts from an unsettled record and leaves a
settled one. -/
theorem tradeStep_ok_settled (tm : TokenMarket) (cfg : EconomicConfig)
    (tr : TradeRecord) (op : TradeOp) (tr2 : TradeRecord) (acts : List PayAction)
    (h : tradeStep tm cfg tr op = .ok (tr2, acts)) :
    tr.settled = false ∧ tr2.settled = true := by
  cases op with
  | settleOp paused caller now stb =>
    simp only [tradeStep, settle_trade] at h
    split at h
    case isTrue => exact Except.noConfusion h
    case isFalse hs =>
      have hsf : tr.settled = false := by simpa using hs
      refine ⟨hsf, ?_⟩
      split at h
      case isTrue => exact Except.noConfusion h
      case isFalse =>
        split at h
        case isTrue => exact Except.noConfusion h
        case isFalse =>
          split at h
          case isTrue => exact Except.noConfusion h
          case isFalse =>
            split at h
            case isTrue => exact Except.noConfusion h
            case isFalse =>
              split at h
              case isTrue => exact Except.noConfusion h
              case isFalse =>
                split at h
                case isTrue => exact Except.noConfusion h
                case isFalse =>
                  split at h
                  case h_1 => exact Except.noConfusion h
                  case h_2 =>
                    injection h with h1
                    simp only [Prod.mk.injEq] at h1
                    rw [← h1.1]
                    rfl
  | cancelOp paused caller now =>
    simp only [tradeStep, cancel_trade] at h
    split at h
    case isTrue => exact Except.noConfusion h
    case isFalse hs =>
      have hsf : tr.settled = false := by simpa using hs
      refine ⟨hsf, ?_⟩
      split at h
      case isTrue => exact Except.noConfusion h
      case isFalse =>
        split at h
        case isTrue => exact Except.noConfusion h
        case isFalse =>
          split at h
          case isTrue => exact Except.noConfusion h
          case isFalse =>
            split at h
            case isTrue => exact Except.noConfusion h
            case isFalse =>
              split at h
              case h_1 => exact Except.noConfusion h
              case h_2 =>
                injection h with h1
                simp only [Prod.mk.injEq] at h1
                rw [← h1.1]
                rfl

/-- A settled record is a fixed point of any sequence of settle/cancel attempts:
no attempt succeeds and the record never changes. -/
theorem runTrade_settled (tm : TokenMarket) (cfg : EconomicConfig) :
    ∀ ops tr, tr.settled = true → runTrade tm cfg tr ops = (tr, 0) := by
  intro ops
  induction ops with
  | nil => intro tr _; rfl
  | cons op ops ih =>
    intro tr h
    simp only [runTrade, tradeStep_settled_error tm cfg tr op h]
    exact ih tr h

/-- Over any sequence of settle/cancel attempts, a settled start admits no
success, and in general at most one attempt ever succeeds. -/
theorem runTrade_once (tm : TokenMarket) (cfg : EconomicConfig) :
    ∀ ops tr, (tr.settled = true → (runTrade tm cfg tr ops).2 = 0) ∧
      (runTrade tm cfg tr ops).2 ≤ 1 := by
  intro ops
  induction ops with
  | nil => intro tr; exact ⟨fun _ => rfl, Nat.zero_le 1⟩
  | cons op ops ih =>
    intro tr
    constructor
    · intro h
      rw [runTrade_settled tm cfg (op :: ops) tr h]
    · cases hstep : tradeStep tm cfg tr op with
      | ok pr =>
        obtain ⟨tr2, acts⟩ := pr
        have h2 := (tradeStep_ok_settled tm cfg tr op tr2 acts hstep).2
        have hrec := (ih tr2).1 h2
        simp only [runTrade, hstep]
        omega
      | error e =>
        have hrec := (ih tr).2
        simp only [runTrade, hstep]
        exact hrec

/-- Claim C6: when a TradeRecord's settled flag is true, settle and
cancel-after-timeout both fail with TradeAlreadySettled (an aborting
transaction: no transfer, no mutation — the record is a fixed point of every
attempt sequence); over any attempt sequence at most one attempt succeeds, and
any successful attempt flips settled from false to true. -/
theorem settled_flag_lifecycle (tm : TokenMarket) (cfg : EconomicConfig)
    (paused pausedC : Bool) (tr : TradeRecord) (callerS callerC : Nat)
    (nowS nowC : Int) (stb : Nat) (ops : List TradeOp) :
    (tr.settled = true →
      settle_trade paused tr tm cfg callerS nowS stb = .error .TradeAlreadySettled ∧
      cancel_trade pausedC tr tm cfg callerC nowC = .error .TradeAlreadySettled ∧
      runTrade tm cfg tr ops = (tr, 0)) ∧
    (runTrade tm cfg tr ops).2 ≤ 1 ∧
    (∀ op tr2 acts, tradeStep tm cfg tr op = .ok (tr2, acts) →
      tr.settled = false ∧ tr2.settled = true) := by
  refine ⟨fun h => ⟨?_, ?_, runTrade_settled tm cfg ops tr h⟩,
    (runTrade_once tm cfg ops tr).2,
    fun op tr2 acts hstep => tradeStep_ok_settled tm cfg tr op tr2 acts hstep⟩
  · exact tradeStep_settled_error tm cfg tr (.settleOp paused callerS nowS stb) h
  · exact tradeStep_settled_error tm cfg tr (.cancelOp pausedC callerC nowC) h

/-- Witness for C6 on a concrete settled trade record: both instructions fail
with TradeAlreadySettled and a two-attempt sequence has zero successes. -/
theorem settled_flag_lifecycle_witness :
    settle_trade false ⟨0, 1, 2, 3, 4, 5, 1000000, 100, 100, 0, true, none⟩
        ⟨3, some 9, 100⟩ ⟨1000, 1000000000000, 10000, 10000, 0, 10000⟩ 2 50 10 =
      .error .TradeAlreadySettled ∧
    cancel_trade false ⟨0, 1, 2, 3, 4, 5, 1000000, 100, 100, 0, true, none⟩
        ⟨3, some 9, 100⟩ ⟨1000, 1000000000000, 10000, 10000, 0, 10000⟩ 1 200 =
      .error .TradeAlreadySettled ∧
    runTrade ⟨3, some 9, 100⟩ ⟨1000, 1000000000000, 10000, 10000, 0, 10000⟩
        ⟨0, 1, 2, 3, 4, 5, 1000000, 100, 100, 0, true, none⟩
        [.settleOp false 2 50 10, .cancelOp false 1 200] =
      (⟨0, 1, 2, 3, 4, 5, 1000000, 100, 100, 0, true, none⟩, 0) :=
  (settled_flag_lifecycle ⟨3, some 9, 100⟩ ⟨1000, 1000000000000, 10000, 10000, 0, 10000⟩
    false false ⟨0, 1, 2, 3, 4, 5, 1000000, 100, 100, 0, true, none⟩ 2 1 50 200 10
    [.settleOp false 2 50 10, .cancelOp false 1 200]).1 rfl

end OrcaPremie.Trading

namespace OrcaPremie.Trading

/-- Claim C5 (amended): cancelling a not-yet-terminal order by its owner succeeds,
unlocks collateral through the vault's privileged credit path (not an external
payout), the amount credited being exactly the collateral formula applied to the
order's unfilled remainder at its price (calculate_order_collateral), and a
second cancel of the resulting record fails with OrderAlreadyCancelled because
the status is the terminal Cancelled. -/
theorem cancel_order_unlock_spec (cfg : EconomicConfig) (signer key : Nat)
    (order : PreOrder) (st : OrderStatus) (now : Int) (c : Nat)
    (hsigner : signer = order.trader)
    (hdl : now ≤ order.deadline)
    (hstat : st.status = .Active ∨ st.status = .PartiallyFilled)
    (hfill : st.filled_quantity < st.original_quantity)
    (hcol : calculate_order_collateral (st.original_quantity - st.filled_quantity)
      order.price order.is_buy cfg = .ok c) :
    cancel_order cfg false signer true (some st) key order now =
      .ok (st.markCancelled,
        if 0 < c then [PayAction.creditBalance order.trader c] else []) ∧
    cancel_order cfg false signer true (some st.markCancelled) key order now =
      .error .OrderAlreadyCancelled := by
  have hnc : st.status ≠ OrderStatusType.Cancelled := by
    rcases hstat with h | h <;> simp [h]
  constructor
  · unfold cancel_order
    rw [if_neg (by simp)]
    rw [if_neg (not_not_intro hsigner)]
    rw [if_neg (by simp)]
    rw [if_neg (not_not_intro hdl)]
    show cancel_order_resolved cfg order st = _
    unfold cancel_order_resolved
    rw [if_neg hnc, if_pos hfill]
    simp only [hcol]
    simp only [OrderStatus.cancel_order]
    rw [if_pos hstat]
    rfl
  · unfold cancel_order
    rw [if_neg (by simp)]
    rw [if_neg (not_not_intro hsigner)]
    rw [if_neg (by simp)]
    rw [if_neg (not_not_intro hdl)]
    show cancel_order_resolved cfg order st.markCancelled = _
    unfold cancel_order_resolved
    rw [if_pos (show OrderStatus.status st.markCancelled = OrderStatusType.Cancelled from rfl)]

/-- Witness for the amended C5: a fully unmatched 3-unit buy order at price
1_000_000 with 50% buyer collateral is cancelled, credits back its full locked
collateral of 1, and the repeat cancel fails. -/
theorem cancel_order_unlock_spec_witness :
    cancel_order ⟨1000, 1000000000000, 5000, 5000, 0, 10000⟩ false 7 true
        (some ⟨0, 9, 7, .Buy, 3, 0, 1, 0, 10, .Active⟩) 0
        ⟨7, 8, 9, 3, 1000000, true, 0, 10⟩ 0 =
      .ok (OrderStatus.markCancelled ⟨0, 9, 7, .Buy, 3, 0, 1, 0, 10, .Active⟩,
        [PayAction.creditBalance 7 1]) ∧
    cancel_order ⟨1000, 1000000000000, 5000, 5000, 0, 10000⟩ false 7 true
        (some (OrderStatus.markCancelled ⟨0, 9, 7, .Buy, 3, 0, 1, 0, 10, .Active⟩)) 0
        ⟨7, 8, 9, 3, 1000000, true, 0, 10⟩ 0 =
      .error .OrderAlreadyCancelled :=
  cancel_order_unlock_spec ⟨1000, 1000000000000, 5000, 5000, 0, 10000⟩ 7 0
    ⟨7, 8, 9, 3, 1000000, true, 0, 10⟩ ⟨0, 9, 7, .Buy, 3, 0, 1, 0, 10, .Active⟩ 0 1
    rfl (by decide) (Or.inl rfl) (by decide) (by rfl)

/-- Claim C5 (counterexample): for a partially filled order (3 units, 1 filled,
collateral_locked 1 at price 1_000_000 with 50% buyer collateral), cancel_order
credits back 1 — the collateral formula recomputed on the 2-unit remainder —
while the exact pro-rata share of collateral_locked for that remainder,
OrderStatus::collateral_to_release, is 1 * 2 / 3 = 0; the credited amount is
not the pro-rata share of collateral_locked. -/
theorem cancel_order_prorata_counterexample :
    cancel_order ⟨1000, 1000000000000, 5000, 5000, 0, 10000⟩ false 7 true
        (some ⟨0, 9, 7, .Buy, 3, 1, 1, 0, 10, .PartiallyFilled⟩) 0
        ⟨7, 8, 9, 3, 1000000, true, 0, 10⟩ 0 =
      .ok (OrderStatus.markCancelled ⟨0, 9, 7, .Buy, 3, 1, 1, 0, 10, .PartiallyFilled⟩,
        [PayAction.creditBalance 7 1]) ∧
    OrderStatus.collateral_to_release ⟨0, 9, 7, .Buy, 3, 1, 1, 0, 10, .PartiallyFilled⟩ 2 = 0 ∧
    (1 : Nat) ≠ 0 :=
  ⟨rfl, rfl, by decide⟩

/-- Claim C10: cancel_order rejects with OrderExpired whenever the current time
is strictly past the order's deadline, before touching the order status or
crediting any collateral (the aborting transaction mutates nothing); this holds
for any stored status, so an expired never-terminal order can never be
cancelled through cancel_order. -/
theorem cancel_order_expired_guard (cfg : EconomicConfig) (signer key : Nat)
    (existing : Option OrderStatus) (order : PreOrder) (now : Int)
    (hsigner : signer = order.trader) (hexp : order.deadline < now) :
    cancel_order cfg false signer true existing key order now = .error .OrderExpired := by
  unfold cancel_order
  rw [if_neg (by simp)]
  rw [if_neg (not_not_intro hsigner)]
  rw [if_neg (by simp)]
  rw [if_pos (not_le.mpr hexp)]

/-- Witness for C10: the Active order of the C5 scenario with deadline 10 cannot
be cancelled at time 11. -/
theorem cancel_order_expired_guard_witness :
    cancel_order ⟨1000, 1000000000000, 5000, 5000, 0, 10000⟩ false 7 true
        (some ⟨0, 9, 7, .Buy, 3, 0, 1, 0, 10, .Active⟩) 0
        ⟨7, 8, 9, 3, 1000000, true, 0, 10⟩ 11 = .error .OrderExpired :=
  cancel_order_expired_guard ⟨1000, 1000000000000, 5000, 5000, 0, 10000⟩ 7 0
    (some ⟨0, 9, 7, .Buy, 3, 0, 1, 0, 10, .Active⟩)
    ⟨7, 8, 9, 3, 1000000, true, 0, 10⟩ 11 rfl (by decide)

end OrcaPremie.Trading
